import Mathlib

/-!
Verification of the retrieval-and-streaming core of the In-Flo chat backend.

Each definition below is a shallow embedding of a function of the Python
sources (`src/python-backend/...`); the file then proves or refutes the
frozen specification claims about them.
-/

set_option maxHeartbeats 1000000

namespace InFlo

/-!
## The `<think>` marker parser of `groq_chunks`
(`src/python-backend/utils/query_func.py`, lines 141-186)

The Python code scans each incoming content fragment with `str.find`
against the two markers, keeping one boolean `in_think_block` between
fragments.  `splitFirst` embeds `temp_content.find(marker)` together with
the two slices taken from its result; the parser itself is embedded as a
fuel-indexed structural recursion (`goF`) whose fuel, set to the fragment
length, is proved irrelevant, so that `parseFrag` satisfies the obvious
unfolding equations of the `while temp_content:` loop.
-/

/-- The reasoning start marker, `'<think>'`. -/
def thinkStartTag : List Char := ['<', 't', 'h', 'i', 'n', 'k', '>']

/-- The reasoning end marker, `'</think>'`. -/
def thinkEndTag : List Char := ['<', '/', 't', 'h', 'i', 'n', 'k', '>']

/-- The marker searched for in a given parser state: `'</think>'` while
`in_think_block` is set, `'<think>'` otherwise. -/
def seekTag (inThink : Bool) : List Char :=
  if inThink then thinkEndTag else thinkStartTag

/-- Embedding of `temp_content.find(marker)` plus the two slices the Python
loop takes: `some (before, after)` splits the scanned text at the first
occurrence of `m`, `none` means the marker is absent. -/
def splitFirst (m : List Char) : List Char → Option (List Char × List Char)
  | [] => if m.isPrefixOf ([] : List Char) then some ([], ([] : List Char)) else none
  | c :: rest =>
    if m.isPrefixOf (c :: rest) then some ([], (c :: rest).drop m.length)
    else (splitFirst m rest).map fun p => (c :: p.1, p.2)

theorem isPrefixOf_eqv {l₁ l₂ : List Char} : l₁.isPrefixOf l₂ = true ↔ l₁ <+: l₂ :=
  List.isPrefixOf_iff_prefix

/-- Result of scanning one fragment: the content and thinking accumulated
by the loop, the final `in_think_block` state, and (instrumentation for the
proofs) the `dangling` tail of the fragment appended by the final
no-marker-found step. -/
structure ParseRes where
  content : List Char
  thinking : List Char
  dangling : List Char
  inThink : Bool
  deriving DecidableEq, Repr

/-- The `find` came back `-1`: the rest of the fragment goes to the current
accumulator and the scan suspends. -/
def noMarkerRes (b : Bool) (cs : List Char) : ParseRes :=
  ⟨if b then [] else cs, if b then cs else [], cs, b⟩

/-- The marker was found: text before it goes to the current accumulator,
the state flips, and the scan continues after the marker. -/
def markerStep (b : Bool) (pre : List Char) (p : ParseRes) : ParseRes :=
  if b then ⟨p.content, pre ++ p.thinking, p.dangling, p.inThink⟩
  else ⟨pre ++ p.content, p.thinking, p.dangling, p.inThink⟩

/-- The `while temp_content:` loop of `groq_chunks`, made structurally
recursive with a fuel argument (the loop consumes at least one character
per iteration, so fuel `cs.length` is enough; see `goF_fuel_irrel`). -/
def goF : Nat → Bool → List Char → ParseRes
  | 0, b, cs => noMarkerRes b cs
  | fuel + 1, b, cs =>
    match splitFirst (seekTag b) cs with
    | none => noMarkerRes b cs
    | some (pre, rest) => markerStep b pre (goF fuel (!b) rest)

/-- Scan of a single content fragment by `groq_chunks`, from parser state
`b`: returns the `(result_content, result_thinking)` accumulated for the
fragment and the updated `in_think_block` state. -/
def parseFrag (b : Bool) (cs : List Char) : ParseRes := goF cs.length b cs

/-- Feeding a list of fragments one at a time through the state machine,
with the `in_think_block` state persisting between fragments; the result is
the concatenated content, the concatenated thinking, and the final state. -/
def parseFrags (b : Bool) : List (List Char) → List Char × List Char × Bool
  | [] => ([], [], b)
  | f :: fs =>
    let p := parseFrag b f
    let q := parseFrags p.inThink fs
    (p.content ++ q.1, p.thinking ++ q.2.1, q.2.2)

theorem seekTag_ne_nil (b : Bool) : seekTag b ≠ [] := by cases b <;> decide

theorem seekTag_length_pos (b : Bool) : 0 < (seekTag b).length := by cases b <;> decide

theorem splitFirst_cons_pos {m : List Char} {c : Char} {rest : List Char}
    (h : m.isPrefixOf (c :: rest)) :
    splitFirst m (c :: rest) = some ([], (c :: rest).drop m.length) := by
  simp [splitFirst, h]

theorem splitFirst_cons_neg {m : List Char} {c : Char} {rest : List Char}
    (h : ¬ m.isPrefixOf (c :: rest)) :
    splitFirst m (c :: rest) = (splitFirst m rest).map fun p => (c :: p.1, p.2) := by
  simp [splitFirst, h]

theorem splitFirst_nil_of_ne {m : List Char} (h : m ≠ []) : splitFirst m [] = none := by
  cases m with
  | nil => exact absurd rfl h
  | cons c cs => simp [splitFirst, List.isPrefixOf]

/-- A successful `find` splits the text at an occurrence of the marker. -/
theorem splitFirst_eq {m : List Char} :
    ∀ {cs pre rest : List Char}, splitFirst m cs = some (pre, rest) →
      cs = pre ++ m ++ rest := by
  intro cs
  induction cs with
  | nil =>
    intro pre rest h
    by_cases hm : m.isPrefixOf ([] : List Char)
    · have hm' : m = [] := List.prefix_nil.mp (isPrefixOf_eqv.mp hm)
      simp [splitFirst, hm] at h
      obtain ⟨h1, h2⟩ := h
      subst h1; subst h2
      simp [hm']
    · simp [splitFirst, hm] at h
  | cons c cs ih =>
    intro pre rest h
    by_cases hm : m.isPrefixOf (c :: cs)
    · rw [splitFirst_cons_pos hm] at h
      obtain ⟨u, hu⟩ := isPrefixOf_eqv.mp hm
      have hpre : pre = [] := by simpa using congrArg Prod.fst (Option.some.inj h)
      have hrest : rest = (c :: cs).drop m.length := by
        simpa using (congrArg Prod.snd (Option.some.inj h)).symm
      subst hpre
      rw [hrest, ← hu, List.drop_left]
      simp
    · rw [splitFirst_cons_neg hm] at h
      cases h' : splitFirst m cs with
      | none => rw [h'] at h; simp at h
      | some p =>
        rw [h'] at h
        obtain ⟨p1, p2⟩ := p
        have h1 : pre = c :: p1 := by simpa using (congrArg Prod.fst (Option.some.inj h)).symm
        have h2 : rest = p2 := by simpa using (congrArg Prod.snd (Option.some.inj h)).symm
        subst h1; subst h2
        simpa using ih h'

theorem splitFirst_length_lt {m cs pre rest : List Char}
    (h : splitFirst m cs = some (pre, rest)) (hm : m ≠ []) :
    rest.length < cs.length := by
  have := splitFirst_eq h
  subst this
  have hml : 0 < m.length := List.length_pos.mpr hm
  simp [List.length_append]
  omega

/-- The fuel given to `goF` is irrelevant as soon as it dominates the length
of the scanned text: the loop consumes at least the marker per iteration. -/
theorem goF_fuel_irrel :
    ∀ fuel b (cs : List Char), cs.length ≤ fuel → goF fuel b cs = goF cs.length b cs := by
  intro fuel
  induction fuel using Nat.strong_induction_on with
  | _ fuel ih =>
    intro b cs hle
    match fuel, cs with
    | 0, cs =>
      have : cs = [] := List.length_eq_zero.mp (Nat.le_zero.mp hle)
      subst this; rfl
    | fuel + 1, [] =>
      simp [goF, splitFirst_nil_of_ne (seekTag_ne_nil b)]
    | fuel + 1, c :: cs =>
      show goF (fuel + 1) b (c :: cs) = goF (c :: cs).length b (c :: cs)
      cases h : splitFirst (seekTag b) (c :: cs) with
      | none =>
        simp only [goF, h, List.length_cons]
      | some p =>
        obtain ⟨pre, rest⟩ := p
        have hlt : rest.length < (c :: cs).length :=
          splitFirst_length_lt h (seekTag_ne_nil b)
        have hle' : cs.length ≤ fuel := by simpa using hle
        have hlt' : rest.length ≤ cs.length := by simpa [Nat.lt_succ_iff] using hlt
        simp only [goF, h, List.length_cons]
        congr 1
        rw [ih fuel (Nat.lt_succ_self _) (!b) rest (by omega),
          ih cs.length (by omega) (!b) rest hlt']

/-- Unfolding `parseFrag` when the sought marker is absent. -/
theorem parseFrag_none {b : Bool} {cs : List Char}
    (h : splitFirst (seekTag b) cs = none) : parseFrag b cs = noMarkerRes b cs := by
  cases cs with
  | nil => rfl
  | cons c cs => simp [parseFrag, goF, h]

/-- Unfolding `parseFrag` when the sought marker is found. -/
theorem parseFrag_some {b : Bool} {cs pre rest : List Char}
    (h : splitFirst (seekTag b) cs = some (pre, rest)) :
    parseFrag b cs = markerStep b pre (parseFrag (!b) rest) := by
  cases cs with
  | nil => rw [splitFirst_nil_of_ne (seekTag_ne_nil b)] at h; exact absurd h (by simp)
  | cons c cs =>
    have hlt : rest.length < (c :: cs).length := splitFirst_length_lt h (seekTag_ne_nil b)
    show goF (c :: cs).length b (c :: cs) = _
    simp only [List.length_cons, goF, h]
    congr 1
    exact goF_fuel_irrel cs.length (!b) rest (by simpa [Nat.lt_succ_iff] using hlt)

theorem prefix_append_left {m s t : List Char} (h : m <+: s ++ t)
    (hlen : m.length ≤ s.length) : m <+: s := by
  have heq := List.prefix_iff_eq_take.mp h
  rw [List.take_append_eq_append_take, Nat.sub_eq_zero_of_le hlen] at heq
  simp only [List.take_zero, List.append_nil] at heq
  exact heq ▸ List.take_prefix _ s

theorem prefix_append_straddle {m s t : List Char} (h : m <+: s ++ t)
    (hlen : s.length < m.length) : m.take s.length = s ∧ m.drop s.length <+: t := by
  have heq := List.prefix_iff_eq_take.mp h
  rw [List.take_append_eq_append_take, List.take_of_length_le (le_of_lt hlen)] at heq
  constructor
  · rw [heq, List.take_left]
  · rw [heq, List.drop_left]
    exact List.take_prefix _ t

/-- A marker found inside `s` is found at the same place inside `s ++ t`. -/
theorem splitFirst_append_some {m : List Char} (hm : m ≠ []) :
    ∀ {s t pre rest : List Char}, splitFirst m s = some (pre, rest) →
      splitFirst m (s ++ t) = some (pre, rest ++ t) := by
  intro s
  induction s with
  | nil =>
    intro t pre rest h
    rw [splitFirst_nil_of_ne hm] at h
    exact absurd h (by simp)
  | cons c s' ih =>
    intro t pre rest h
    by_cases hp : m.isPrefixOf (c :: s')
    · rw [splitFirst_cons_pos hp] at h
      have hpre : pre = [] := by simpa using congrArg Prod.fst (Option.some.inj h)
      have hrest : rest = (c :: s').drop m.length := by
        simpa using (congrArg Prod.snd (Option.some.inj h)).symm
      have hpfx := isPrefixOf_eqv.mp hp
      have hp2 : m.isPrefixOf (c :: (s' ++ t)) := by
        rw [← List.cons_append]
        exact isPrefixOf_eqv.mpr (hpfx.trans (List.prefix_append _ t))
      rw [List.cons_append, splitFirst_cons_pos hp2]
      subst hpre; subst hrest
      rw [← List.cons_append, List.drop_append_eq_append_drop,
        Nat.sub_eq_zero_of_le hpfx.length_le]
      simp
    · rw [splitFirst_cons_neg hp] at h
      cases h' : splitFirst m s' with
      | none => rw [h'] at h; simp at h
      | some p =>
        obtain ⟨p1, p2⟩ := p
        rw [h'] at h
        have h1 : pre = c :: p1 := by
          simpa using (congrArg Prod.fst (Option.some.inj h)).symm
        have h2 : rest = p2 := by
          simpa using (congrArg Prod.snd (Option.some.inj h)).symm
        have hlen : m.length ≤ (c :: s').length := by
          have := splitFirst_eq h'
          subst this
          simp [List.length_append]
          omega
        have hnp : ¬ m.isPrefixOf (c :: (s' ++ t)) := by
          intro hcon
          have hcon' : m <+: (c :: s') ++ t := isPrefixOf_eqv.mp hcon
          exact hp (isPrefixOf_eqv.mpr (prefix_append_left hcon' hlen))
        rw [List.cons_append, splitFirst_cons_neg hnp, ih h']
        simp [h1, h2]

/-- When the marker is absent from `s` and no occurrence of it straddles the
boundary between `s` and `t`, searching `s ++ t` is searching `t`. -/
theorem splitFirst_append_none {m : List Char} (_hm : m ≠ []) :
    ∀ {s t : List Char}, splitFirst m s = none →
      (∀ k, k < m.length → 0 < k → ¬(m.take k <:+ s ∧ m.drop k <+: t)) →
      splitFirst m (s ++ t) = (splitFirst m t).map fun p => (s ++ p.1, p.2) := by
  intro s
  induction s with
  | nil =>
    intro t _ _
    simp only [List.nil_append]
    cases splitFirst m t <;> simp
  | cons c s' ih =>
    intro t hnone hsafe
    have hp : ¬ m.isPrefixOf (c :: s') := by
      intro hcon
      rw [splitFirst_cons_pos hcon] at hnone
      simp at hnone
    rw [splitFirst_cons_neg hp] at hnone
    have hs' : splitFirst m s' = none := by
      cases h' : splitFirst m s' with
      | none => rfl
      | some p => rw [h'] at hnone; simp at hnone
    have hnp : ¬ m.isPrefixOf (c :: (s' ++ t)) := by
      intro hcon
      have hcon' : m <+: (c :: s') ++ t := isPrefixOf_eqv.mp hcon
      by_cases hlen : m.length ≤ (c :: s').length
      · exact hp (isPrefixOf_eqv.mpr (prefix_append_left hcon' hlen))
      · push_neg at hlen
        obtain ⟨h1, h2⟩ := prefix_append_straddle hcon' hlen
        refine hsafe (c :: s').length hlen (by simp) ⟨?_, h2⟩
        rw [h1]
    have hsafe' : ∀ k, k < m.length → 0 < k → ¬(m.take k <:+ s' ∧ m.drop k <+: t) := by
      rintro k hk hk0 ⟨ha, hb⟩
      exact hsafe k hk hk0 ⟨ha.trans (List.suffix_cons c s'), hb⟩
    rw [List.cons_append, splitFirst_cons_neg hnp, ih hs' hsafe']
    cases splitFirst m t <;> simp

theorem markerStep_inThink (b : Bool) (pre : List Char) (p : ParseRes) :
    (markerStep b pre p).inThink = p.inThink := by cases b <;> rfl

theorem markerStep_dangling (b : Bool) (pre : List Char) (p : ParseRes) :
    (markerStep b pre p).dangling = p.dangling := by cases b <;> rfl

/-- No marker occurrence that the parser would consume may straddle the
boundary between the dangling tail `d` of the text scanned so far (in final
state `st`) and the continuation `t`. -/
def safeB (st : Bool) (d t : List Char) : Prop :=
  ∀ k, k < (seekTag st).length → 0 < k →
    ¬((seekTag st).take k <:+ d ∧ (seekTag st).drop k <+: t)

instance (st : Bool) (d t : List Char) : Decidable (safeB st d t) := by
  unfold safeB; infer_instance

theorem parseFrag_append_none {b : Bool} {s t : List Char}
    (h : splitFirst (seekTag b) s = none) (hsafe : safeB b s t) :
    (parseFrag b (s ++ t)).content
        = (parseFrag b s).content ++ (parseFrag (parseFrag b s).inThink t).content
      ∧ (parseFrag b (s ++ t)).thinking
        = (parseFrag b s).thinking ++ (parseFrag (parseFrag b s).inThink t).thinking
      ∧ (parseFrag b (s ++ t)).inThink = (parseFrag (parseFrag b s).inThink t).inThink := by
  have hps : parseFrag b s = noMarkerRes b s := parseFrag_none h
  have hsplit := splitFirst_append_none (seekTag_ne_nil b) h hsafe
  have hbs : (noMarkerRes b s).inThink = b := rfl
  rw [hps, hbs]
  cases ht : splitFirst (seekTag b) t with
  | none =>
    have h2 : splitFirst (seekTag b) (s ++ t) = none := by rw [hsplit, ht]; rfl
    rw [parseFrag_none h2, parseFrag_none ht]
    cases b <;> simp [noMarkerRes]
  | some p =>
    obtain ⟨pre, rest⟩ := p
    have h2 : splitFirst (seekTag b) (s ++ t) = some (s ++ pre, rest) := by
      rw [hsplit, ht]; rfl
    rw [parseFrag_some h2, parseFrag_some ht]
    cases b <;> simp [markerStep, noMarkerRes, List.append_assoc]

theorem parseFrag_append_aux :
    ∀ (n : Nat) (b : Bool) (s t : List Char), s.length ≤ n →
      safeB (parseFrag b s).inThink (parseFrag b s).dangling t →
      (parseFrag b (s ++ t)).content
          = (parseFrag b s).content ++ (parseFrag (parseFrag b s).inThink t).content
        ∧ (parseFrag b (s ++ t)).thinking
          = (parseFrag b s).thinking ++ (parseFrag (parseFrag b s).inThink t).thinking
        ∧ (parseFrag b (s ++ t)).inThink = (parseFrag (parseFrag b s).inThink t).inThink := by
  intro n
  induction n with
  | zero =>
    intro b s t hle hsafe
    have hs : s = [] := List.length_eq_zero.mp (Nat.le_zero.mp hle)
    subst hs
    have h0 : splitFirst (seekTag b) [] = none := splitFirst_nil_of_ne (seekTag_ne_nil b)
    apply parseFrag_append_none h0
    rw [parseFrag_none h0] at hsafe
    exact hsafe
  | succ n ih =>
    intro b s t hle hsafe
    cases h : splitFirst (seekTag b) s with
    | none =>
      apply parseFrag_append_none h
      rw [parseFrag_none h] at hsafe
      exact hsafe
    | some p =>
      obtain ⟨pre, rest⟩ := p
      have hps := parseFrag_some h
      have hlt : rest.length < s.length := splitFirst_length_lt h (seekTag_ne_nil b)
      rw [hps, markerStep_inThink, markerStep_dangling] at hsafe
      have hrec := ih (!b) rest t (by omega) hsafe
      have h2 : splitFirst (seekTag b) (s ++ t) = some (pre, rest ++ t) :=
        splitFirst_append_some (seekTag_ne_nil b) h
      obtain ⟨hc, hth, hst⟩ := hrec
      rw [parseFrag_some h2, hps]
      refine ⟨?_, ?_, ?_⟩ <;>
        cases b <;>
          simp_all [markerStep, List.append_assoc]

/-- Compositionality of the fragment scanner: if no sought-marker occurrence
straddles the boundary between `s` and `t`, scanning `s ++ t` in one piece
agrees with scanning `s` then `t` with the state carried over. -/
theorem parseFrag_append (b : Bool) (s t : List Char)
    (hsafe : safeB (parseFrag b s).inThink (parseFrag b s).dangling t) :
    (parseFrag b (s ++ t)).content
        = (parseFrag b s).content ++ (parseFrag (parseFrag b s).inThink t).content
      ∧ (parseFrag b (s ++ t)).thinking
        = (parseFrag b s).thinking ++ (parseFrag (parseFrag b s).inThink t).thinking
      ∧ (parseFrag b (s ++ t)).inThink = (parseFrag (parseFrag b s).inThink t).inThink :=
  parseFrag_append_aux s.length b s t le_rfl hsafe

/-- A fragmentation is safe when, at every fragment boundary, no occurrence
of the marker sought in the state reached there straddles the boundary. -/
def safeSplit : Bool → List (List Char) → Prop
  | _, [] => True
  | b, f :: fs =>
    safeB (parseFrag b f).inThink (parseFrag b f).dangling fs.flatten ∧
      safeSplit (parseFrag b f).inThink fs

instance instDecidableSafeSplit :
    (b : Bool) → (fs : List (List Char)) → Decidable (safeSplit b fs)
  | _, [] => .isTrue trivial
  | b, f :: fs =>
    have : Decidable (safeSplit (parseFrag b f).inThink fs) := instDecidableSafeSplit _ fs
    inferInstanceAs (Decidable (_ ∧ _))

theorem parseFrags_flatten :
    ∀ (fs : List (List Char)) (b : Bool), safeSplit b fs →
      parseFrags b fs =
        ((parseFrag b fs.flatten).content, (parseFrag b fs.flatten).thinking,
          (parseFrag b fs.flatten).inThink) := by
  intro fs
  induction fs with
  | nil =>
    intro b _
    cases b <;> rfl
  | cons f fs ih =>
    intro b hsafe
    obtain ⟨h1, h2⟩ := hsafe
    obtain ⟨hc, hth, hst⟩ := parseFrag_append b f fs.flatten h1
    show (_, _, _) = _
    rw [ih _ h2, List.flatten_cons]
    simp [Prod.ext_iff, hc, hth, hst]

/-- C1 (amended): feeding the fragments of a text one at a time through the
`groq_chunks` marker-parsing state machine (the `in_think_block` state
persisting between fragments) yields a concatenated `(content, reasoning)`
pair equal to the one obtained by parsing the whole text as a single
fragment, **provided no occurrence of the sought marker straddles a
fragment boundary** (`safeSplit`).  The unamended claim — which also covers
markers whose characters are split across a boundary — is refuted by
`groq_marker_split_across_fragments_cex`. -/
theorem groq_marker_parser_fragment_concat (fs : List (List Char))
    (H : safeSplit false fs) :
    parseFrags false fs =
      ((parseFrag false fs.flatten).content, (parseFrag false fs.flatten).thinking,
        (parseFrag false fs.flatten).inThink) :=
  parseFrags_flatten fs false H

/-- Witness for C1's amended theorem: the spec's own scenario
`['<think>', 'partial', '</think>', 'answer']` is a safe fragmentation, and
the theorem instantiates to the expected `(content, reasoning)` pair. -/
theorem groq_marker_parser_fragment_concat_witness :
    safeSplit false
        [['<', 't', 'h', 'i', 'n', 'k', '>'], ['p', 'a', 'r', 't', 'i', 'a', 'l'],
          ['<', '/', 't', 'h', 'i', 'n', 'k', '>'], ['a', 'n', 's', 'w', 'e', 'r']] ∧
      parseFrags false
        [['<', 't', 'h', 'i', 'n', 'k', '>'], ['p', 'a', 'r', 't', 'i', 'a', 'l'],
          ['<', '/', 't', 'h', 'i', 'n', 'k', '>'], ['a', 'n', 's', 'w', 'e', 'r']] =
        (['a', 'n', 's', 'w', 'e', 'r'], ['p', 'a', 'r', 't', 'i', 'a', 'l'], false) :=
  ⟨by decide,
    (groq_marker_parser_fragment_concat _ (by decide)).trans (by decide)⟩

/-- C1 counterexample: the text `'<think>r</think>c'` contains both markers,
but splitting it as `['<th', 'ink>r</think>c']` — cutting through the
`'<think>'` marker — does not reproduce the unsplit parse: the boolean
`in_think_block` alone cannot reassemble a marker split across a fragment
boundary, so the whole text is classified as content. -/
theorem groq_marker_split_across_fragments_cex :
    (splitFirst thinkStartTag
        (['<', 't', 'h'] ++
          ['i', 'n', 'k', '>', 'r', '<', '/', 't', 'h', 'i', 'n', 'k', '>', 'c'])).isSome
        = true ∧
      (splitFirst thinkEndTag
        (['<', 't', 'h'] ++
          ['i', 'n', 'k', '>', 'r', '<', '/', 't', 'h', 'i', 'n', 'k', '>', 'c'])).isSome
        = true ∧
      parseFrags false
          [['<', 't', 'h'], ['i', 'n', 'k', '>', 'r', '<', '/', 't', 'h', 'i', 'n', 'k', '>', 'c']] ≠
        ((parseFrag false
            (['<', 't', 'h'] ++
              ['i', 'n', 'k', '>', 'r', '<', '/', 't', 'h', 'i', 'n', 'k', '>', 'c'])).content,
          (parseFrag false
            (['<', 't', 'h'] ++
              ['i', 'n', 'k', '>', 'r', '<', '/', 't', 'h', 'i', 'n', 'k', '>', 'c'])).thinking,
          (parseFrag false
            (['<', 't', 'h'] ++
              ['i', 'n', 'k', '>', 'r', '<', '/', 't', 'h', 'i', 'n', 'k', '>', 'c'])).inThink) := by
  refine ⟨by decide, by decide, by decide⟩

/-!
## The SSE encoder `stream_response`
(`src/python-backend/utils/query_func.py`, lines 48-78)

`stream_response` consumes the chunk iterator inside a `try`, polls
`state.is_disconnected()` once per pulled chunk, sends the source map with
the first non-empty chunk only, and converts an exception raised by the
iterator into one terminal error event.

Modelled from the spec: `RequestState` (`utils/schemas.py` is not under
`src/`) only exposes a cancellation flag flipped by the transport layer, so
`is_disconnected` is embedded as an oracle `d : Nat → Bool` giving the
flag's value at the k-th poll.  The underlying iterator is embedded as the
list of chunks it yields before finishing, plus an optional exception
message raised at the pull that follows the last yielded chunk.  The JSON
dict written by `format_chunk` is embedded as the `SSEEvent` structure
carrying the same fields.
-/

/-- The source-map payload attached to an SSE event; only its emptiness
matters to `stream_response` (Python dict truthiness). -/
def SourcePayload := List (Nat × String)
  deriving DecidableEq

/-- A raw chunk from a provider generator: either a plain string or a
`(content, thinking)` tuple, exactly the two shapes `stream_response`
normalizes. -/
inductive RawChunk where
  | plain (s : String)
  | pair (content : String) (thinking : Option String)
  deriving DecidableEq

/-- `content, thinking = chunk, None` or tuple unpacking. -/
def normalizeChunk : RawChunk → String × Option String
  | .plain s => (s, none)
  | .pair c t => (c, t)

/-- Python truthiness of the optional `thinking` field. -/
def optTruthy : Option String → Bool
  | none => false
  | some s => s != ""

/-- Python truthiness of the optional `sources` dict. -/
def srcTruthy : Option SourcePayload → Bool
  | none => false
  | some l => !l.isEmpty

/-- One unit of the outgoing SSE stream: a data event (the dict built by
`format_chunk`) or the terminal error event of the `except` branch. -/
inductive SSEEvent where
  | data (content : String) (model : String) (sources : Option SourcePayload)
      (thinking : Option String)
  | fault (msg : String)
  deriving DecidableEq

/-- Embedding of `format_chunk`: the SSE data dict with its optional
`sources` and `thinking` fields. -/
def format_chunk (content model : String) (sources : Option SourcePayload)
    (thinking : Option String) : SSEEvent :=
  .data content model sources thinking

/-- The `async for` loop of `stream_response`: `k` counts polls of the
cancellation oracle, `sent` is `sent_sources`. -/
def streamGo (d : Nat → Bool) (model : String) (src : Option SourcePayload)
    (err : Option String) : Nat → Bool → List RawChunk → List SSEEvent
  | _, _, [] =>
    match err with
    | none => []
    | some e => [.fault e]
  | k, sent, ch :: rest =>
    if d k then []
    else
      if (normalizeChunk ch).1 ≠ "" ∨ optTruthy (normalizeChunk ch).2 = true then
        if sent = false ∧ srcTruthy src = true then
          format_chunk (normalizeChunk ch).1 model src (normalizeChunk ch).2 ::
            streamGo d model src err (k + 1) true rest
        else
          format_chunk (normalizeChunk ch).1 model none (normalizeChunk ch).2 ::
            streamGo d model src err (k + 1) sent rest
      else streamGo d model src err (k + 1) sent rest

/-- Embedding of `stream_response`: `chunks` are the chunks the underlying
iterator yields, `err` an exception it raises at the following pull. -/
def stream_response (d : Nat → Bool) (chunks : List RawChunk) (err : Option String)
    (model : String) (src : Option SourcePayload) : List SSEEvent :=
  streamGo d model src err 0 false chunks

def isDataEvent : SSEEvent → Bool
  | .data .. => true
  | .fault _ => false

def isFaultEvent : SSEEvent → Bool
  | .fault _ => true
  | .data .. => false

def carriesSources : SSEEvent → Bool
  | .data _ _ (some _) _ => true
  | _ => false

/-- A chunk whose content or thinking is truthy, i.e. one that produces an
SSE event. -/
def emitChunk (ch : RawChunk) : Bool :=
  ((normalizeChunk ch).1 != "") || optTruthy (normalizeChunk ch).2

theorem streamGo_sent_no_sources (d : Nat → Bool) (model : String)
    (src : Option SourcePayload) (err : Option String) :
    ∀ (chunks : List RawChunk) (k : Nat),
      ∀ e ∈ streamGo d model src err k true chunks, carriesSources e = false := by
  intro chunks
  induction chunks with
  | nil =>
    intro k e he
    cases err with
    | none => simp [streamGo] at he
    | some msg => simp [streamGo] at he; simp [he, carriesSources]
  | cons ch rest ih =>
    intro k e he
    by_cases hd : d k
    · simp [streamGo, hd] at he
    · by_cases hch : (normalizeChunk ch).1 ≠ "" ∨ optTruthy (normalizeChunk ch).2 = true
      · rw [streamGo, if_neg hd, if_pos hch, if_neg (by simp)] at he
        rcases List.mem_cons.mp he with h | h
        · simp [h, format_chunk, carriesSources]
        · exact ih (k + 1) e h
      · rw [streamGo, if_neg hd, if_neg hch] at he
        exact ih (k + 1) e he

theorem streamGo_fresh_sources (d : Nat → Bool) (model : String)
    (src : Option SourcePayload) (err : Option String) (h : srcTruthy src = true) :
    ∀ (chunks : List RawChunk) (k : Nat),
      (streamGo d model src err k false chunks).countP carriesSources
          = (if (streamGo d model src err k false chunks).any isDataEvent then 1 else 0)
        ∧ (∀ e, (streamGo d model src err k false chunks).head? = some e →
            isDataEvent e = true → carriesSources e = true)
        ∧ (∀ i, 0 < i → ∀ e, (streamGo d model src err k false chunks).get? i = some e →
            carriesSources e = false) := by
  intro chunks
  induction chunks with
  | nil =>
    intro k
    cases err with
    | none => simp [streamGo]
    | some msg =>
      refine ⟨by simp [streamGo, carriesSources, isDataEvent], ?_, ?_⟩
      · intro e he hde
        simp [streamGo] at he
        rw [← he] at hde
        simp [isDataEvent] at hde
      · intro i hi e he
        cases i with
        | zero => omega
        | succ j => simp [streamGo] at he
  | cons ch rest ih =>
    intro k
    by_cases hd : d k
    · simp [streamGo, hd]
    · by_cases hch : (normalizeChunk ch).1 ≠ "" ∨ optTruthy (normalizeChunk ch).2 = true
      · rw [streamGo, if_neg hd, if_pos hch, if_pos ⟨rfl, h⟩]
        have htail := streamGo_sent_no_sources d model src err rest (k + 1)
        refine ⟨?_, ?_, ?_⟩
        · have hcs : carriesSources (SSEEvent.data (normalizeChunk ch).1 model src
              (normalizeChunk ch).2) = true := by
            cases src with
            | none => simp [srcTruthy] at h
            | some l => simp [carriesSources]
          have hzero : (streamGo d model src err (k + 1) true rest).countP carriesSources
              = 0 := by
            rw [List.countP_eq_zero]
            intro e he
            simp [htail e he]
          simp [List.countP_cons, hcs, hzero, List.any_cons, format_chunk, isDataEvent]
        · intro e he hde
          simp at he
          rw [← he]
          cases src with
          | none => simp [srcTruthy] at h
          | some l => simp [format_chunk, carriesSources]
        · intro i hi e he
          cases i with
          | zero => omega
          | succ j =>
            simp [List.get?_eq_getElem?] at he
            exact htail e (List.getElem?_mem he)
      · rw [streamGo, if_neg hd, if_neg hch]
        exact ih (k + 1)

/-- C2 (amended): with a non-empty source map supplied, at most one emitted
SSE event carries the source-map payload; an event carries it exactly when
it is the first event of the stream and is a data event (every data event
has non-empty content or reasoning, and the error event can only come
last), and exactly one event carries it whenever any data event is emitted
at all.  The unamended "exactly one per stream" fails when no event is
emitted: see `stream_response_sources_empty_stream_cex`. -/
theorem stream_response_sources_once (d : Nat → Bool) (chunks : List RawChunk)
    (err : Option String) (model : String) (src : Option SourcePayload)
    (h : srcTruthy src = true) :
    (stream_response d chunks err model src).countP carriesSources
        = (if (stream_response d chunks err model src).any isDataEvent then 1 else 0)
      ∧ (∀ e, (stream_response d chunks err model src).head? = some e →
          isDataEvent e = true → carriesSources e = true)
      ∧ (∀ i, 0 < i → ∀ e, (stream_response d chunks err model src).get? i = some e →
          carriesSources e = false) :=
  streamGo_fresh_sources d model src err h chunks 0

/-- Witness for C2's amended theorem at a concrete stream: two non-empty
chunks with a one-entry source map; the first event carries the sources and
the second does not. -/
theorem stream_response_sources_once_witness :
    srcTruthy (some [(1, "http://a")]) = true ∧
      (stream_response (fun _ => false) [RawChunk.plain "x", RawChunk.pair "y" none]
            none "m" (some [(1, "http://a")])).countP carriesSources
          = (if (stream_response (fun _ => false) [RawChunk.plain "x", RawChunk.pair "y" none]
              none "m" (some [(1, "http://a")])).any isDataEvent then 1 else 0) :=
  ⟨by decide,
    (stream_response_sources_once (fun _ => false)
      [RawChunk.plain "x", RawChunk.pair "y" none] none "m" (some [(1, "http://a")])
      (by decide)).1⟩

/-- C2 counterexample: an exhausted chunk iterator (no chunks, no fault)
with a non-empty source map produces zero SSE events, so no event at all —
in particular not exactly one — carries the source-map payload. -/
theorem stream_response_sources_empty_stream_cex :
    stream_response (fun _ => false) [] none "m" (some [(1, "http://a")]) = [] ∧
      (stream_response (fun _ => false) [] none "m"
          (some [(1, "http://a")])).countP carriesSources ≠ 1 := by
  exact ⟨rfl, by decide⟩

theorem streamGo_fault_terminal (d : Nat → Bool) (model : String)
    (src : Option SourcePayload) (msg : String) :
    ∀ (chunks : List RawChunk) (k : Nat) (sent : Bool),
      (∀ j, j < chunks.length → d (k + j) = false) →
      ∃ pre, streamGo d model src (some msg) k sent chunks = pre ++ [SSEEvent.fault msg]
        ∧ ∀ e ∈ pre, isFaultEvent e = false := by
  intro chunks
  induction chunks with
  | nil =>
    intro k sent _
    exact ⟨[], by simp [streamGo]⟩
  | cons ch rest ih =>
    intro k sent hpolls
    have hd : d k = false := by simpa using hpolls 0 (by simp)
    have hshift : ∀ j, j < rest.length → d (k + 1 + j) = false := by
      intro j hj
      have := hpolls (j + 1) (by simp; omega)
      rwa [show k + (j + 1) = k + 1 + j by omega] at this
    by_cases hch : (normalizeChunk ch).1 ≠ "" ∨ optTruthy (normalizeChunk ch).2 = true
    · by_cases hsrc : sent = false ∧ srcTruthy src = true
      · obtain ⟨pre, hpre, hall⟩ := ih (k + 1) true hshift
        refine ⟨format_chunk (normalizeChunk ch).1 model src (normalizeChunk ch).2 :: pre,
          ?_, ?_⟩
        · rw [streamGo, if_neg (by simp [hd]), if_pos hch, if_pos hsrc, hpre]
          simp
        · intro e he
          rcases List.mem_cons.mp he with h | h
          · simp [h, format_chunk, isFaultEvent]
          · exact hall e h
      · obtain ⟨pre, hpre, hall⟩ := ih (k + 1) sent hshift
        refine ⟨format_chunk (normalizeChunk ch).1 model none (normalizeChunk ch).2 :: pre,
          ?_, ?_⟩
        · rw [streamGo, if_neg (by simp [hd]), if_pos hch, if_neg hsrc, hpre]
          simp
        · intro e he
          rcases List.mem_cons.mp he with h | h
          · simp [h, format_chunk, isFaultEvent]
          · exact hall e h
    · obtain ⟨pre, hpre, hall⟩ := ih (k + 1) sent hshift
      refine ⟨pre, ?_, hall⟩
      rw [streamGo, if_neg (by simp [hd]), if_neg hch, hpre]

/-- C4 (confirmed): if the underlying chunk iterator raises a fault at the
pull following its yielded chunks (and the request is not cancelled first,
so that the failing pull is reached), the SSE encoder emits exactly one
terminal event carrying the error description: every event before it is a
data event, the fault event is last, and the stream ends there.  The fault
is converted to a value of the event stream — by construction of the total
function `stream_response` nothing propagates past the wrapper. -/
theorem stream_response_fault_terminal (d : Nat → Bool) (chunks : List RawChunk)
    (model : String) (src : Option SourcePayload) (msg : String)
    (hpolls : ∀ j, j < chunks.length → d j = false) :
    ∃ pre, stream_response d chunks (some msg) model src = pre ++ [SSEEvent.fault msg]
      ∧ ∀ e ∈ pre, isFaultEvent e = false := by
  exact streamGo_fault_terminal d model src msg chunks 0 false (by simpa using hpolls)

/-- Witness for C4 at a concrete stream: one yielded chunk, then a raised
fault; the encoder emits the data event followed by one terminal error
event. -/
theorem stream_response_fault_terminal_witness :
    ∃ pre, stream_response (fun _ => false) [RawChunk.plain "hi"] (some "boom") "m" none
        = pre ++ [SSEEvent.fault "boom"]
      ∧ ∀ e ∈ pre, isFaultEvent e = false :=
  stream_response_fault_terminal (fun _ => false) [RawChunk.plain "hi"] "m" none "boom"
    (fun _ _ => rfl)

theorem streamGo_cancel_trunc (d : Nat → Bool) (model : String)
    (src : Option SourcePayload) (err : Option String) :
    ∀ (chunks : List RawChunk) (n k : Nat) (sent : Bool),
      (∀ j, j < n → d (k + j) = false) → d (k + n) = true → n < chunks.length →
      streamGo d model src err k sent chunks
        = streamGo d model src none k sent (chunks.take n) := by
  intro chunks
  induction chunks with
  | nil =>
    intro n k sent _ _ hlen
    simp at hlen
  | cons ch rest ih =>
    intro n k sent hbefore hn hlen
    cases n with
    | zero =>
      have hd : d k = true := by simpa using hn
      simp [streamGo, hd]
    | succ m =>
      have hd : d k = false := by simpa using hbefore 0 (by omega)
      have hbefore' : ∀ j, j < m → d (k + 1 + j) = false := by
        intro j hj
        have := hbefore (j + 1) (by omega)
        rwa [show k + (j + 1) = k + 1 + j by omega] at this
      have hn' : d (k + 1 + m) = true := by
        rwa [show k + (m + 1) = k + 1 + m by omega] at hn
      have hlen' : m < rest.length := by simpa using hlen
      rw [List.take_succ_cons]
      simp only [streamGo, hd, Bool.false_eq_true, if_false]
      by_cases hch : (normalizeChunk ch).1 ≠ "" ∨ optTruthy (normalizeChunk ch).2 = true
      · by_cases hsrc : sent = false ∧ srcTruthy src = true
        · rw [if_pos hch, if_pos hch, if_pos hsrc, if_pos hsrc,
            ih m (k + 1) true hbefore' hn' hlen']
        · rw [if_pos hch, if_pos hch, if_neg hsrc, if_neg hsrc,
            ih m (k + 1) sent hbefore' hn' hlen']
      · rw [if_neg hch, if_neg hch, ih m (k + 1) sent hbefore' hn' hlen']

theorem streamGo_length_no_fault (d : Nat → Bool) (model : String)
    (src : Option SourcePayload) :
    ∀ (chunks : List RawChunk) (k : Nat) (sent : Bool),
      (streamGo d model src none k sent chunks).length
        ≤ chunks.countP emitChunk := by
  intro chunks
  induction chunks with
  | nil => intro k sent; simp [streamGo]
  | cons ch rest ih =>
    intro k sent
    by_cases hd : d k
    · simp [streamGo, hd]
    · by_cases hch : (normalizeChunk ch).1 ≠ "" ∨ optTruthy (normalizeChunk ch).2 = true
      · have hemit : emitChunk ch = true := by
          simp [emitChunk]
          rcases hch with h | h
          · exact Or.inl h
          · exact Or.inr h
        by_cases hsrc : sent = false ∧ srcTruthy src = true
        · rw [streamGo, if_neg hd, if_pos hch, if_pos hsrc]
          simpa [List.countP_cons, hemit] using ih (k + 1) true
        · rw [streamGo, if_neg hd, if_pos hch, if_neg hsrc]
          simpa [List.countP_cons, hemit] using ih (k + 1) sent
      · have hemit : emitChunk ch = false := by
          simp [emitChunk]
          push_neg at hch
          exact ⟨hch.1, by simpa using hch.2⟩
        rw [streamGo, if_neg hd, if_neg hch]
        calc (streamGo d model src none (k + 1) sent rest).length
            ≤ rest.countP emitChunk := ih (k + 1) sent
          _ ≤ (ch :: rest).countP emitChunk := by
              simp only [List.countP_cons]
              omega

/-- C7 (confirmed): the encoder polls the cancellation flag once per pulled
chunk; if the first poll observing the flag true is poll `K` (so exactly
the events of the first `K` chunks — `N` of them — were emitted before the
flag was seen), the whole event stream equals the stream produced by the
first `K` chunks alone, with no terminal fault event: no `(N+1)`-th event
is ever produced, and the already-emitted events are unchanged. -/
theorem stream_response_cancel_stops (d : Nat → Bool) (chunks : List RawChunk)
    (err : Option String) (model : String) (src : Option SourcePayload) (K : Nat)
    (hbefore : ∀ j, j < K → d j = false) (hK : d K = true) (hKlen : K < chunks.length) :
    stream_response d chunks err model src
        = stream_response d (chunks.take K) none model src
      ∧ (stream_response d chunks err model src).length
        ≤ (chunks.take K).countP emitChunk := by
  have heq : stream_response d chunks err model src
      = stream_response d (chunks.take K) none model src :=
    streamGo_cancel_trunc d model src err chunks K 0 false (by simpa using hbefore)
      (by simpa using hK) hKlen
  refine ⟨heq, ?_⟩
  rw [heq]
  exact streamGo_length_no_fault d model src (chunks.take K) 0 false

/-- Witness for C7: the flag is first observed true at poll 1, after one
event was emitted; the stream equals the one-chunk stream and stays at one
event even though two more chunks and a pending fault follow. -/
theorem stream_response_cancel_stops_witness :
    stream_response (fun k => decide (1 ≤ k))
          [RawChunk.plain "a", RawChunk.plain "b", RawChunk.plain "c"] (some "late")
          "m" none
        = stream_response (fun k => decide (1 ≤ k)) [RawChunk.plain "a"] none "m" none
      ∧ (stream_response (fun k => decide (1 ≤ k))
          [RawChunk.plain "a", RawChunk.plain "b", RawChunk.plain "c"] (some "late")
          "m" none).length
        ≤ ([RawChunk.plain "a", RawChunk.plain "b", RawChunk.plain "c"].take 1).countP
            emitChunk := by
  have h := stream_response_cancel_stops (fun k => decide (1 ≤ k))
    [RawChunk.plain "a", RawChunk.plain "b", RawChunk.plain "c"] (some "late") "m" none 1
    (by intro j hj; simp; omega) (by decide) (by decide)
  exact h

/-!
## The request-tracker cleanup of the `/api/chat` endpoint
(`src/python-backend/server.py`, lines 115-121)

The cleanup task guards against a missing `active_requests` attribute with
`hasattr`, then calls `app.state.active_requests.remove(request_id)`.
Python's `set.remove` raises `KeyError` when the element is absent (the
idempotent variant would be `set.discard`).  The registry is embedded as
`Option (Finset Nat)` — `none` for a missing attribute — and the possible
`KeyError` as the `Except` error case.
-/

/-- Embedding of the `cleanup` background task of the `chat` endpoint. -/
def cleanup (st : Option (Finset Nat)) (requestId : Nat) :
    Except String (Option (Finset Nat)) :=
  match st with
  | none => Except.ok none
  | some s =>
    if requestId ∈ s then Except.ok (some (s.erase requestId))
    else Except.error "KeyError"

/-- C3 (amended): `cleanup` removes the request id from the registry when
the id is present (and tolerates a missing registry attribute), but it is
**not** idempotent: invoking it when the id is already absent raises
`KeyError` instead of leaving the registry unchanged — see
`chat_cleanup_absent_id_cex`. -/
theorem chat_cleanup_removes_id (s : Finset Nat) (requestId : Nat) :
    (requestId ∈ s →
        cleanup (some s) requestId = Except.ok (some (s.erase requestId))
          ∧ requestId ∉ s.erase requestId)
      ∧ (requestId ∉ s → cleanup (some s) requestId = Except.error "KeyError")
      ∧ cleanup none requestId = Except.ok none := by
  refine ⟨fun h => ⟨?_, Finset.not_mem_erase _ _⟩, fun h => ?_, rfl⟩
  · simp [cleanup, h]
  · simp [cleanup, h]

/-- Witness for C3's amended theorem at a concrete registry `{5}` and id
`5`: removal succeeds and leaves the registry without the id. -/
theorem chat_cleanup_removes_id_witness :
    (5 ∈ ({5} : Finset Nat)) ∧
      cleanup (some ({5} : Finset Nat)) 5 = Except.ok (some (({5} : Finset Nat).erase 5))
        ∧ 5 ∉ ({5} : Finset Nat).erase 5 :=
  ⟨by decide, (chat_cleanup_removes_id {5} 5).1 (by decide)⟩

/-- C3 counterexample: invoking `cleanup` when the id is already absent
(empty registry) raises `KeyError` — `set.remove` is not idempotent, so the
claim's "raises no fault and leaves the registry unchanged" fails. -/
theorem chat_cleanup_absent_id_cex :
    cleanup (some (∅ : Finset Nat)) 0 = Except.error "KeyError" ∧
      cleanup (some (∅ : Finset Nat)) 0 ≠ Except.ok (some (∅ : Finset Nat)) := by
  constructor
  · simp [cleanup]
  · simp [cleanup]

/-!
## The retrieval orchestrator `search_and_scrape`
(`src/python-backend/utils/web_search/search.py`, lines 55-136)

The two search providers and the scraper are external capabilities: they
are embedded as oracles indexed by the attempt number (`none` models a
raised exception, which the code turns into an empty URL list) and a
per-URL scrape oracle (`none` models a failed scrape, dropped by
`scrape_urls_async`).  Both search helpers deduplicate their results with
`dict.fromkeys`, keeping first occurrences (`dedupFirst`).  The loop also
returns, as proof instrumentation, the untrimmed accumulated documents,
the per-attempt lists of URLs handed to the scraper, and the query string
issued to the providers on each attempt. -/

/-- The fixed denylist of low-value domains (`exclusions`). -/
def exclusions : List String :=
  ["https://en.wikipedia.org", "https://www.britannica.com", "https://www.quora.com",
    "https://www.reddit.com", "https://www.youtube.com"]

/-- `' '.join([f'-site:{e}' for e in exclusions])`. -/
def exclusionStr : String :=
  String.intercalate " " (exclusions.map (fun e => "-site:" ++ e))

/-- `list(dict.fromkeys(urls))`: deduplication keeping first occurrences. -/
def dedupFirstAux (seen : List String) : List String → List String
  | [] => []
  | x :: xs => if x ∈ seen then dedupFirstAux seen xs else x :: dedupFirstAux (x :: seen) xs

def dedupFirst (l : List String) : List String := dedupFirstAux [] l

/-- The URL list one attempt works with: DuckDuckGo first (exception or
empty list falls through), then Tavily (exception yields an empty list);
each provider's helper deduplicates its own results. -/
def attemptUrls (ddg tav : Nat → Option (List String)) (attempt : Nat) : List String :=
  let ddgUrls :=
    match ddg attempt with
    | some us => dedupFirst us
    | none => []
  if ddgUrls.isEmpty then
    match tav attempt with
    | some us => dedupFirst us
    | none => []
  else ddgUrls

/-- `[url for url in urls if url not in seen_urls]`: the attempt's URLs
filtered against `seen_urls`. -/
def attemptNew (ddg tav : Nat → Option (List String)) (attempt : Nat)
    (seen : List String) : List String :=
  (attemptUrls ddg tav attempt).filter (fun u => decide (u ∉ seen))

/-- Instrumented result of the retrieval loop. -/
structure RetrievalTrace (δ : Type) where
  rawDocs : List δ
  scrapedBatches : List (List String)
  queries : List String

/-- The `while` loop of `search_and_scrape`; the fuel argument counts the
attempts still allowed (`max_attempts - attempt`). -/
def sasGo {δ : Type} (ddg tav : Nat → Option (List String)) (scr : String → Option δ)
    (target : Nat) :
    Nat → Nat → String → List δ → List String → Nat → RetrievalTrace δ
  | 0, _, _, docs, _, _ => ⟨docs, [], []⟩
  | fuel + 1, attempt, query, docs, seen, offset =>
    if target ≤ docs.length then ⟨docs, [], []⟩
    else
      let query' := query ++ " " ++ exclusionStr
      let newUrls := attemptNew ddg tav (attempt + 1) seen
      if newUrls.isEmpty then ⟨docs, [], [query']⟩
      else
        let r := sasGo ddg tav scr target fuel (attempt + 1) query'
          (docs ++ newUrls.filterMap scr) (seen ++ newUrls)
          (offset + ((target - docs.length) + 5 + offset))
        ⟨r.rawDocs, newUrls :: r.scrapedBatches, query' :: r.queries⟩

theorem sasGo_stop {δ : Type} {ddg tav : Nat → Option (List String)}
    {scr : String → Option δ} {target fuel attempt : Nat} {query : String}
    {docs : List δ} {seen : List String} {offset : Nat} (h : target ≤ docs.length) :
    sasGo ddg tav scr target (fuel + 1) attempt query docs seen offset = ⟨docs, [], []⟩ := by
  simp [sasGo, h]

theorem sasGo_break {δ : Type} {ddg tav : Nat → Option (List String)}
    {scr : String → Option δ} {target fuel attempt : Nat} {query : String}
    {docs : List δ} {seen : List String} {offset : Nat} (h : ¬ target ≤ docs.length)
    (he : (attemptNew ddg tav (attempt + 1) seen).isEmpty = true) :
    sasGo ddg tav scr target (fuel + 1) attempt query docs seen offset
      = ⟨docs, [], [query ++ " " ++ exclusionStr]⟩ := by
  simp only [sasGo]
  rw [if_neg h, if_pos he]

theorem sasGo_step {δ : Type} {ddg tav : Nat → Option (List String)}
    {scr : String → Option δ} {target fuel attempt : Nat} {query : String}
    {docs : List δ} {seen : List String} {offset : Nat} (h : ¬ target ≤ docs.length)
    (he : ¬ (attemptNew ddg tav (attempt + 1) seen).isEmpty = true) :
    sasGo ddg tav scr target (fuel + 1) attempt query docs seen offset
      = ⟨(sasGo ddg tav scr target fuel (attempt + 1) (query ++ " " ++ exclusionStr)
            (docs ++ (attemptNew ddg tav (attempt + 1) seen).filterMap scr)
            (seen ++ attemptNew ddg tav (attempt + 1) seen)
            (offset + ((target - docs.length) + 5 + offset))).rawDocs,
          attemptNew ddg tav (attempt + 1) seen ::
            (sasGo ddg tav scr target fuel (attempt + 1) (query ++ " " ++ exclusionStr)
              (docs ++ (attemptNew ddg tav (attempt + 1) seen).filterMap scr)
              (seen ++ attemptNew ddg tav (attempt + 1) seen)
              (offset + ((target - docs.length) + 5 + offset))).scrapedBatches,
          (query ++ " " ++ exclusionStr) ::
            (sasGo ddg tav scr target fuel (attempt + 1) (query ++ " " ++ exclusionStr)
              (docs ++ (attemptNew ddg tav (attempt + 1) seen).filterMap scr)
              (seen ++ attemptNew ddg tav (attempt + 1) seen)
              (offset + ((target - docs.length) + 5 + offset))).queries⟩ := by
  simp only [sasGo]
  rw [if_neg h, if_neg he]

/-- Embedding of `search_and_scrape`: the returned document list is the
accumulated successes trimmed to `targetCount`; the trace is kept for the
statements. -/
def search_and_scrape {δ : Type} (ddg tav : Nat → Option (List String))
    (scr : String → Option δ) (query : String) (targetCount maxAttempts : Nat) :
    List δ × RetrievalTrace δ :=
  let r := sasGo ddg tav scr targetCount maxAttempts 0 query [] [] 0
  (r.rawDocs.take targetCount, r)

theorem dedupFirstAux_spec (l : List String) :
    ∀ seen, (dedupFirstAux seen l).Nodup ∧ ∀ x ∈ dedupFirstAux seen l, x ∉ seen := by
  induction l with
  | nil => intro seen; simp [dedupFirstAux]
  | cons x xs ih =>
    intro seen
    by_cases hx : x ∈ seen
    · simpa [dedupFirstAux, hx] using ih seen
    · obtain ⟨hnd, hmem⟩ := ih (x :: seen)
      refine ⟨?_, ?_⟩
      · simp only [dedupFirstAux, hx, if_false]
        refine List.Nodup.cons (fun hxin => ?_) hnd
        exact hmem x hxin (List.mem_cons_self x seen)
      · intro y hy
        simp only [dedupFirstAux, hx, if_false] at hy
        rcases List.mem_cons.mp hy with h | h
        · exact h ▸ hx
        · exact fun hys => hmem y h (List.mem_cons_of_mem x hys)

theorem dedupFirst_nodup (l : List String) : (dedupFirst l).Nodup :=
  (dedupFirstAux_spec l []).1

theorem attemptUrls_nodup (ddg tav : Nat → Option (List String)) (attempt : Nat) :
    (attemptUrls ddg tav attempt).Nodup := by
  unfold attemptUrls
  cases h : ddg attempt with
  | none =>
    simp only [h]
    cases h2 : tav attempt with
    | none => simp
    | some us => simp [dedupFirst_nodup]
  | some us =>
    simp only [h]
    by_cases he : (dedupFirst us).isEmpty
    · rw [if_pos he]
      cases h2 : tav attempt with
      | none => simp
      | some vs => simp [dedupFirst_nodup]
    · rw [if_neg he]
      exact dedupFirst_nodup us

theorem attemptNew_nodup (ddg tav : Nat → Option (List String)) (attempt : Nat)
    (seen : List String) : (attemptNew ddg tav attempt seen).Nodup :=
  (attemptUrls_nodup ddg tav attempt).filter _

theorem attemptNew_not_seen (ddg tav : Nat → Option (List String)) (attempt : Nat)
    (seen : List String) : ∀ u ∈ attemptNew ddg tav attempt seen, u ∉ seen := by
  intro u hu
  have := List.of_mem_filter hu
  simpa using this

theorem sasGo_batches_nodup {δ : Type} (ddg tav : Nat → Option (List String))
    (scr : String → Option δ) (target : Nat) :
    ∀ (fuel attempt : Nat) (query : String) (docs : List δ) (seen : List String)
      (offset : Nat),
      (sasGo ddg tav scr target fuel attempt query docs seen offset).scrapedBatches.flatten.Nodup
        ∧ ∀ u ∈ (sasGo ddg tav scr target fuel attempt query docs seen
            offset).scrapedBatches.flatten, u ∉ seen := by
  intro fuel
  induction fuel with
  | zero => intro attempt query docs seen offset; simp [sasGo]
  | succ fuel ih =>
    intro attempt query docs seen offset
    by_cases hstop : target ≤ docs.length
    · rw [sasGo_stop hstop]
      simp
    · by_cases hempty : (attemptNew ddg tav (attempt + 1) seen).isEmpty = true
      · rw [sasGo_break hstop hempty]
        simp
      · rw [sasGo_step hstop hempty]
        dsimp only
        rw [List.flatten_cons]
        have hnodupNew := attemptNew_nodup ddg tav (attempt + 1) seen
        have hnewNotSeen := attemptNew_not_seen ddg tav (attempt + 1) seen
        obtain ⟨hrec1, hrec2⟩ := ih (attempt + 1) (query ++ " " ++ exclusionStr)
          (docs ++ (attemptNew ddg tav (attempt + 1) seen).filterMap scr)
          (seen ++ attemptNew ddg tav (attempt + 1) seen)
          (offset + ((target - docs.length) + 5 + offset))
        refine ⟨?_, ?_⟩
        · rw [List.nodup_append]
          refine ⟨hnodupNew, hrec1, ?_⟩
          intro u hu hurec
          exact hrec2 u hurec (List.mem_append_right seen hu)
        · intro u hu
          rcases List.mem_append.mp hu with h | h
          · exact hnewNotSeen u h
          · intro hus
            exact hrec2 u h (List.mem_append_left _ hus)

/-- C5 (confirmed): within a single `search_and_scrape` call no URL is ever
handed to the scraper more than once across all attempts — every attempt
filters the provider's URLs against `seen_urls` and adds only the new ones,
so the per-attempt scrape batches are pairwise disjoint and individually
duplicate-free. -/
theorem search_and_scrape_no_rescrape {δ : Type} (ddg tav : Nat → Option (List String))
    (scr : String → Option δ) (query : String) (targetCount maxAttempts : Nat) :
    ((search_and_scrape ddg tav scr query targetCount
        maxAttempts).2.scrapedBatches.flatten).Nodup :=
  (sasGo_batches_nodup ddg tav scr targetCount maxAttempts 0 query [] [] 0).1

/-- C6 (confirmed): `search_and_scrape` returns at most `targetCount`
documents, and exactly `targetCount` whenever at least `targetCount` scrape
successes accumulated within the allowed attempts; an empty list is an
ordinary value of the same total function. -/
theorem search_and_scrape_target_bound {δ : Type} (ddg tav : Nat → Option (List String))
    (scr : String → Option δ) (query : String) (targetCount maxAttempts : Nat) :
    (search_and_scrape ddg tav scr query targetCount maxAttempts).1.length ≤ targetCount
      ∧ (targetCount ≤ (search_and_scrape ddg tav scr query targetCount
            maxAttempts).2.rawDocs.length →
          (search_and_scrape ddg tav scr query targetCount maxAttempts).1.length
            = targetCount) := by
  constructor
  · simp [search_and_scrape, List.length_take]
  · intro h
    simp only [search_and_scrape, List.length_take]
    simp only [search_and_scrape] at h
    omega

/-- Witness for C6 at a concrete run: one attempt, one URL, one scrape
success, `targetCount = 1`; enough successes accumulated, so the result has
exactly the target length. -/
theorem search_and_scrape_target_bound_witness :
    (1 ≤ (search_and_scrape (fun _ => some ["http://u"]) (fun _ => none)
          (fun _ => some (0 : Nat)) "q" 1 1).2.rawDocs.length)
      ∧ (search_and_scrape (fun _ => some ["http://u"]) (fun _ => none)
          (fun _ => some (0 : Nat)) "q" 1 1).1.length = 1 :=
  ⟨by decide,
    (search_and_scrape_target_bound (fun _ => some ["http://u"]) (fun _ => none)
      (fun _ => some (0 : Nat)) "q" 1 1).2 (by decide)⟩

/-- The query string after `n` in-loop reassignments
`query = f"{query} {exclusion_str}"`. -/
def withExclusions (q : String) : Nat → String
  | 0 => q
  | n + 1 => withExclusions q n ++ " " ++ exclusionStr

theorem withExclusions_shift (q : String) :
    ∀ n, withExclusions (q ++ " " ++ exclusionStr) n = withExclusions q (n + 1) := by
  intro n
  induction n with
  | zero => rfl
  | succ n ih => simp only [withExclusions, ih]

theorem sasGo_queries {δ : Type} (ddg tav : Nat → Option (List String))
    (scr : String → Option δ) (target : Nat) :
    ∀ (fuel attempt : Nat) (query : String) (docs : List δ) (seen : List String)
      (offset : Nat),
      (sasGo ddg tav scr target fuel attempt query docs seen offset).queries
        = (List.range (sasGo ddg tav scr target fuel attempt query docs seen
            offset).queries.length).map (fun i => withExclusions query (i + 1)) := by
  intro fuel
  induction fuel with
  | zero => intro attempt query docs seen offset; simp [sasGo]
  | succ fuel ih =>
    intro attempt query docs seen offset
    by_cases hstop : target ≤ docs.length
    · rw [sasGo_stop hstop]
      simp
    · by_cases hempty : (attemptNew ddg tav (attempt + 1) seen).isEmpty = true
      · rw [sasGo_break hstop hempty]
        simp [List.range_succ, withExclusions]
      · rw [sasGo_step hstop hempty]
        dsimp only
        rw [ih (attempt + 1) (query ++ " " ++ exclusionStr)
          (docs ++ (attemptNew ddg tav (attempt + 1) seen).filterMap scr)
          (seen ++ attemptNew ddg tav (attempt + 1) seen)
          (offset + ((target - docs.length) + 5 + offset))]
        simp only [List.length_cons, List.length_map, List.length_range,
          List.range_succ_eq_map, List.map_cons, List.map_map]
        rw [List.cons_eq_cons]
        refine ⟨by simp [withExclusions], ?_⟩
        apply List.map_congr_left
        intro i _
        show withExclusions (query ++ " " ++ exclusionStr) (i + 1)
            = withExclusions query (i + 1 + 1)
        rw [withExclusions_shift]

/-- C9 (confirmed): the in-loop reassignment `query = f"{query} {exclusion_str}"`
mutates the variable that persists across iterations, so the query issued
on (1-indexed) attempt `k` — the k-th entry of the issued-query trace — is
the original user query followed by `k` concatenated copies of the
exclusion list, not exactly one copy per call. -/
theorem search_and_scrape_query_growth {δ : Type} (ddg tav : Nat → Option (List String))
    (scr : String → Option δ) (query : String) (targetCount maxAttempts : Nat) :
    (search_and_scrape ddg tav scr query targetCount maxAttempts).2.queries
      = (List.range (search_and_scrape ddg tav scr query targetCount
          maxAttempts).2.queries.length).map (fun i => withExclusions query (i + 1)) :=
  sasGo_queries ddg tav scr targetCount maxAttempts 0 query [] [] 0

/-!
## The context assembler
(`src/python-backend/utils/sources.py`)

`build_source_map` and `format_context` both enumerate the ranked results
from 1; the score component is never inspected, so it is embedded
polymorphically.  The Python dict with keys inserted in enumeration order
is embedded as the association list of `(id, url, score, snippet)` entries
in that order.
-/

/-- `chunk[:snippet_length] + "..." if len(chunk) > snippet_length else chunk`. -/
def buildSnippet (chunk : String) (snippetLength : Nat) : String :=
  if snippetLength < chunk.length then chunk.take snippetLength ++ "..." else chunk

/-- Embedding of `build_source_map`: entries `(idx, url, score, snippet)`
for `idx, (chunk, score, source_url) in enumerate(results, 1)`. -/
def build_source_map {α : Type} (results : List (String × α × String))
    (snippetLength : Nat) : List (Nat × String × α × String) :=
  (List.enumFrom 1 results).map fun p =>
    (p.1, p.2.2.2, p.2.2.1, buildSnippet p.2.1 snippetLength)

/-- The `context_parts` list comprehension of `format_context`. -/
def contextParts {α : Type} (results : List (String × α × String)) : List String :=
  (List.enumFrom 1 results).map fun p =>
    "<source_id='" ++ toString p.1 ++ "'>\n" ++ p.2.1 ++ "\n</source_id>"

/-- Embedding of `format_context` (`if not results:` is list emptiness). -/
def format_context {α : Type} (results : List (String × α × String)) : String :=
  if results.isEmpty then "" else String.intercalate "\n\n" (contextParts results)

/-- Embedding of `process_search_results`. -/
def process_search_results {α : Type} (results : List (String × α × String))
    (snippetLength : Nat) : String × List (Nat × String × α × String) :=
  if results.isEmpty then ("", [])
  else (format_context results, build_source_map results snippetLength)

theorem citation_tag_split (s c : String) :
    "<source_id='" ++ s ++ "'>\n" ++ c ++ "\n</source_id>"
      = ("<source_id='" ++ s ++ "'>") ++ ("\n" ++ c ++ "\n</source_id>") := by
  have h1 : ("'>\n" : String) = "'>" ++ "\n" := by decide
  simp only [String.append_assoc]
  rw [h1, String.append_assoc]

/-- C8 (confirmed): the assembler returns `("", {})` on an empty ranked
list; on a non-empty list of length `K` the source-map keys are exactly the
dense 1-indexed sequence `1..K` in rank order, and the context string is
the `"\n\n"`-join of one part per ranked result, the `i`-th part opening
with the citation tag `<source_id='i+1'>` — the tags appear in exactly rank
order. -/
theorem process_search_results_spec {α : Type} (results : List (String × α × String))
    (snippetLength : Nat) :
    process_search_results ([] : List (String × α × String)) snippetLength = ("", [])
      ∧ (results ≠ [] →
          (build_source_map results snippetLength).map Prod.fst
              = List.range' 1 results.length
            ∧ (contextParts results).length = results.length
            ∧ (∀ i (h : i < (contextParts results).length), ∃ rest,
                (contextParts results).get ⟨i, h⟩
                  = "<source_id='" ++ toString (i + 1) ++ "'>" ++ rest)
            ∧ (process_search_results results snippetLength).1
              = String.intercalate "\n\n" (contextParts results)) := by
  refine ⟨by simp [process_search_results], fun hne => ⟨?_, ?_, ?_, ?_⟩⟩
  · rw [build_source_map, List.map_map]
    have hfun : (Prod.fst ∘ fun p : Nat × (String × α × String) =>
        (p.1, p.2.2.2, p.2.2.1, buildSnippet p.2.1 snippetLength))
          = (Prod.fst : Nat × (String × α × String) → Nat) := by
      funext p; rfl
    rw [hfun, List.enumFrom_map_fst]
  · simp [contextParts]
  · intro i h
    refine ⟨"\n" ++ (results.get ⟨i, by simpa [contextParts] using h⟩).1
      ++ "\n</source_id>", ?_⟩
    simp only [contextParts, List.get_eq_getElem, List.getElem_map,
      List.getElem_enumFrom]
    rw [Nat.add_comm 1 i]
    exact citation_tag_split _ _
  · simp [process_search_results, format_context, List.isEmpty_iff, hne]

/-- Witness for C8 at a concrete two-result list: keys `[1, 2]`, two parts,
each opening with its rank's citation tag, joined into the context
string. -/
theorem process_search_results_spec_witness :
    ([("hello", (1 : Nat), "http://a"), ("world", 2, "http://b")]
          ≠ ([] : List (String × Nat × String)))
      ∧ ((build_source_map [("hello", (1 : Nat), "http://a"), ("world", 2, "http://b")]
              200).map Prod.fst
            = List.range' 1
                ([("hello", (1 : Nat), "http://a"), ("world", 2, "http://b")]).length
          ∧ (contextParts [("hello", (1 : Nat), "http://a"), ("world", 2, "http://b")]).length
            = ([("hello", (1 : Nat), "http://a"), ("world", 2, "http://b")]).length
          ∧ (∀ i (h : i < (contextParts
                [("hello", (1 : Nat), "http://a"), ("world", 2, "http://b")]).length),
              ∃ rest,
                (contextParts
                    [("hello", (1 : Nat), "http://a"), ("world", 2, "http://b")]).get ⟨i, h⟩
                  = "<source_id='" ++ toString (i + 1) ++ "'>" ++ rest)
          ∧ (process_search_results
                [("hello", (1 : Nat), "http://a"), ("world", 2, "http://b")] 200).1
            = String.intercalate "\n\n"
                (contextParts [("hello", (1 : Nat), "http://a"), ("world", 2, "http://b")])) :=
  ⟨by decide,
    (process_search_results_spec
      [("hello", (1 : Nat), "http://a"), ("world", 2, "http://b")] 200).2 (by decide)⟩

/-!
## The per-URL scraper `fetch_url` and `scrape_urls`
(`src/python-backend/utils/web_search/scraper.py`, lines 221-270 and 273-317)

The HTTP layer and the HTML-to-markdown conversion are external
capabilities (the spec treats them as black boxes): the outcome of
`client.get(url)` is embedded as a `FetchOutcome` oracle — the three
`except` clauses correspond to its three failure constructors — and
`html_to_markdown` as an oracle returning `(title, markdown)`.  Every
branch of `fetch_url` returns a `ScrapedPage` value; the `except` clauses
make the function total, which the embedding reflects by construction. -/

/-- Result of awaiting `client.get(url)` (and `raise_for_status`): either a
response with its content type and body, or one of the three caught
exception kinds. -/
inductive FetchOutcome where
  | ok (contentType : String) (body : String)
  | timeout
  | statusError (code : Nat)
  | otherError (msg : String)
  deriving DecidableEq

/-- The `ScrapedPage` dataclass. -/
structure ScrapedPage where
  url : String
  title : Option String
  markdown : String
  success : Bool
  error : Option String
  deriving DecidableEq

/-- The LangChain `Document` produced by `ScrapedPage.to_document`. -/
structure WebDocument where
  source : String
  title : Option String
  pageContent : String
  deriving DecidableEq

def to_document (p : ScrapedPage) : WebDocument :=
  ⟨p.url, p.title, p.markdown⟩

/-- Python's `pat in hay` substring test, via the marker-search embedding. -/
def strContains (hay pat : String) : Bool :=
  (splitFirst pat.toList hay.toList).isSome

/-- Python's `str.lower()`, character-wise. -/
def strLower (s : String) : String := String.mk (s.data.map Char.toLower)

/-- Python's `str.strip()`: drop leading and trailing whitespace. -/
def stripWs (s : String) : String :=
  String.mk (((s.data.dropWhile Char.isWhitespace).reverse.dropWhile
    Char.isWhitespace).reverse)

/-- Embedding of `fetch_url`; `h2m` is the external `html_to_markdown`
capability returning `(title, markdown)`. -/
def fetch_url (h2m : String → Option String × String) (outcome : FetchOutcome)
    (url : String) : ScrapedPage :=
  match outcome with
  | .ok contentType body =>
    if strContains (strLower contentType) "text/html" = false then
      ⟨url, none, "", false, some ("Not HTML content: " ++ contentType)⟩
    else
      if (h2m body).2 = "" ∨ stripWs (h2m body).2 = "" then
        ⟨url, (h2m body).1, "", false, some "Empty content after extraction"⟩
      else ⟨url, (h2m body).1, (h2m body).2, true, none⟩
  | .timeout => ⟨url, none, "", false, some "Timeout"⟩
  | .statusError code => ⟨url, none, "", false, some ("HTTP " ++ toString code)⟩
  | .otherError msg => ⟨url, none, "", false, some msg⟩

/-- Embedding of `scrape_urls`: fetch every URL, keep the successful pages,
convert them to documents. -/
def scrape_urls (h2m : String → Option String × String)
    (outcomes : String → FetchOutcome) (urls : List String) : List WebDocument :=
  (((urls.map (fun u => fetch_url h2m (outcomes u) u)).filter
    (fun p => p.success)).map to_document)

/-- C10 (confirmed): a response whose content type is not HTML, and a
response whose extracted markdown is empty after cleaning, are both
returned as `success = false` with a non-empty error; every failing branch
of the total function `fetch_url` sets the error field; and every document
`scrape_urls` returns comes from a page fetched successfully — failed pages
are excluded. -/
theorem fetch_url_failures_captured (h2m : String → Option String × String)
    (url contentType body : String) (outcomes : String → FetchOutcome)
    (urls : List String) :
    (strContains (strLower contentType) "text/html" = false →
        (fetch_url h2m (.ok contentType body) url).success = false
          ∧ (fetch_url h2m (.ok contentType body) url).error
            = some ("Not HTML content: " ++ contentType)
          ∧ "Not HTML content: " ++ contentType ≠ "")
      ∧ (strContains (strLower contentType) "text/html" = true →
          ((h2m body).2 = "" ∨ stripWs (h2m body).2 = "") →
          (fetch_url h2m (.ok contentType body) url).success = false
            ∧ (fetch_url h2m (.ok contentType body) url).error
              = some "Empty content after extraction"
            ∧ ("Empty content after extraction" : String) ≠ "")
      ∧ (∀ outcome : FetchOutcome, (fetch_url h2m outcome url).success = false →
          (fetch_url h2m outcome url).error.isSome = true)
      ∧ (∀ d ∈ scrape_urls h2m outcomes urls, ∃ u ∈ urls,
          (fetch_url h2m (outcomes u) u).success = true
            ∧ d = to_document (fetch_url h2m (outcomes u) u)) := by
  refine ⟨fun hct => ?_, fun hct hmd => ?_, fun outcome hs => ?_, fun d hd => ?_⟩
  · refine ⟨by simp [fetch_url, hct], by simp [fetch_url, hct], fun hc => ?_⟩
    have h1 := congrArg String.length hc
    rw [String.length_append] at h1
    have h2 : ("Not HTML content: " : String).length = 18 := by decide
    have h3 : ("" : String).length = 0 := by decide
    omega
  · have hne : ¬ strContains (strLower contentType) "text/html" = false := by simp [hct]
    refine ⟨?_, ?_, by decide⟩
    · simp only [fetch_url]
      rw [if_neg hne, if_pos hmd]
    · simp only [fetch_url]
      rw [if_neg hne, if_pos hmd]
  · cases outcome with
    | ok ct b =>
      by_cases hct : strContains (strLower ct) "text/html" = false
      · simp [fetch_url, hct]
      · by_cases hmd : ((h2m b).2 = "" ∨ stripWs (h2m b).2 = "")
        · simp only [fetch_url]
          rw [if_neg hct, if_pos hmd]
          rfl
        · simp only [fetch_url] at hs
          rw [if_neg hct, if_neg hmd] at hs
          simp at hs
    | timeout => rfl
    | statusError code => rfl
    | otherError msg => rfl
  · simp only [scrape_urls, List.mem_map, List.mem_filter] at hd
    obtain ⟨p, ⟨hpmem, hpsucc⟩, hpd⟩ := hd
    obtain ⟨u, humem, hup⟩ := hpmem
    exact ⟨u, humem, by rw [hup]; simpa using hpsucc, by rw [← hpd, hup]⟩

/-- Witness for C10: a JSON response is rejected as non-HTML with a
non-empty error, and an HTML response whose conversion yields empty
markdown is rejected as empty content. -/
theorem fetch_url_failures_captured_witness :
    ((fetch_url (fun _ => (none, "")) (.ok "application/json" "b") "http://u").success
          = false
        ∧ (fetch_url (fun _ => (none, "")) (.ok "application/json" "b") "http://u").error
          = some ("Not HTML content: " ++ "application/json")
        ∧ "Not HTML content: " ++ "application/json" ≠ "")
      ∧ ((fetch_url (fun _ => (none, "")) (.ok "text/html; charset=utf-8" "b")
            "http://u").success = false
        ∧ (fetch_url (fun _ => (none, "")) (.ok "text/html; charset=utf-8" "b")
            "http://u").error = some "Empty content after extraction"
        ∧ ("Empty content after extraction" : String) ≠ "") :=
  ⟨(fetch_url_failures_captured (fun _ => (none, "")) "http://u" "application/json" "b"
      (fun _ => .timeout) []).1 (by decide),
    (fetch_url_failures_captured (fun _ => (none, "")) "http://u" "text/html; charset=utf-8"
      "b" (fun _ => .timeout) []).2.1 (by decide) (Or.inl rfl)⟩

end InFlo
